import Mathlib

/-!
A shallow embedding of the RAG pipeline in `gradio_rag.py`: the chunker
(`load_all_chunks`), the incremental indexer (`build_index`) and the streaming
query function (`ask_with_context_stream`), together with proofs of the
specified properties.

Python strings are modelled as Lean `String`s (with slicing and stripping done
on the underlying `List Char`, matching Python's code-point semantics).  The
external services (embedding endpoint, ChromaDB collection, generation
endpoint) are modelled as explicit parameters: fallible calls return `Except`,
the collection is an explicit list of `(id, document, embedding)` entries, and
the generation response is a status plus a list of wire lines.
-/

namespace RAG

/-- Python `str.strip()` on the underlying character list. -/
def stripChars (l : List Char) : List Char :=
  ((l.dropWhile Char.isWhitespace).reverse.dropWhile Char.isWhitespace).reverse

/-- Python `s.strip()` for a `String`. -/
def pyStrip (s : String) : String :=
  ⟨stripChars s.data⟩

/-- Python `s[n:]` for a `String` (code-point based, like Python). -/
def pyDrop (s : String) (n : Nat) : String :=
  ⟨s.data.drop n⟩

/-- Python `s.startswith(p)`. -/
def pyStartsWith (s p : String) : Bool :=
  p.data.isPrefixOf s.data

/-- Python `range(start, stop, step)` for a positive `step`
(`step = 0` raises in Python and is never used here). -/
def pyRange (start stop step : Nat) : List Nat :=
  (List.range ((stop - start + step - 1) / step)).map (fun k => start + k * step)

/-- Python `l[i : i + n]` on a character list. -/
def pySlice (l : List Char) (i n : Nat) : List Char :=
  (l.drop i).take n

/-- The chunking comprehension of `load_all_chunks`:
`[text[i:i + chunk_size] for i in range(0, len(text), chunk_size)]`. -/
def chunkText (text : List Char) (size : Nat) : List (List Char) :=
  (pyRange 0 text.length size).map (fun i => pySlice text i size)

/-- A `.txt` file of the document directory: its name and raw content. -/
structure TxtFile where
  name : String
  content : String
deriving DecidableEq

/-- Insert a file into a name-sorted list (stable, like Python `sorted`). -/
def insertByName (f : TxtFile) : List TxtFile → List TxtFile
  | [] => [f]
  | g :: gs => if f.name ≤ g.name then f :: g :: gs else g :: insertByName f gs

/-- `sorted(data_dir.glob("*.txt"))`: files in lexicographic name order. -/
def sortByName : List TxtFile → List TxtFile
  | [] => []
  | f :: fs => insertByName f (sortByName fs)

/-- `load_all_chunks`: strip each file's text, skip empty files, slice the rest
into `chunk_size`-character chunks, concatenating over files in name order. -/
def load_all_chunks (files : List TxtFile) (chunk_size : Nat) : List (List Char) :=
  ((sortByName files).map (fun file =>
    let text := stripChars file.content.data
    if text = [] then [] else chunkText text chunk_size)).flatten

/-- An embedding vector (the floats themselves play no role in the claims). -/
abbrev Emb := List Int

/-- The ChromaDB collection: an ordered list of `(id, document, embedding)`
entries, insertion order preserved. -/
structure Collection where
  entries : List (String × List Char × Emb)
deriving DecidableEq

/-- `collection.count()`. -/
def Collection.count (c : Collection) : Nat := c.entries.length

/-- The ids of all stored entries (`collection.get(...)["ids"]`). -/
def Collection.ids (c : Collection) : List String := c.entries.map (fun e => e.1)

/-- `collection.add(ids=[chunk_id], documents=[chunk], embeddings=[emb])`. -/
def Collection.add (c : Collection) (chunk_id : String) (document : List Char)
    (embedding : Emb) : Collection :=
  ⟨c.entries ++ [(chunk_id, document, embedding)]⟩

/-- The `for idx, chunk in enumerate(all_chunks):` loop of `build_index`, with
the enumeration counter made explicit.  Returns the updated collection, the
list of `(chunk_id, chunk)` arguments of every embedding call made (failed
attempt included), and `some e` if an embedding call raised. -/
def buildLoop (embed : List Char → Except String Emb) (existing_ids : List String) :
    Nat → List (List Char) → Collection →
      Collection × List (String × List Char) × Option String
  | _, [], col => (col, [], none)
  | idx, chunk :: rest, col =>
    let chunk_id := toString idx
    if chunk_id ∈ existing_ids then
      buildLoop embed existing_ids (idx + 1) rest col
    else
      match embed chunk with
      | .error e => (col, [(chunk_id, chunk)], some e)
      | .ok emb =>
        let r := buildLoop embed existing_ids (idx + 1) rest (col.add chunk_id chunk emb)
        (r.1, (chunk_id, chunk) :: r.2.1, r.2.2)

/-- Result of one `build_index` run: the returned status string, the collection
after the run, and the log of embedding-service calls made during the run. -/
structure BuildOutcome where
  message : String
  col : Collection
  embedLog : List (String × List Char)
deriving DecidableEq

/-- `build_index`, with the document files, the chunk size, the embedding
service and the collection passed explicitly. -/
def build_index (files : List TxtFile) (chunk_size : Nat)
    (embed : List Char → Except String Emb) (col : Collection) : BuildOutcome :=
  let all_chunks := load_all_chunks files chunk_size
  let total := all_chunks.length
  if total = 0 then
    ⟨"No .txt files found in the research_papers folder.", col, []⟩
  else
    let existing_ids := if 0 < col.count then col.ids else []
    let r := buildLoop embed existing_ids 0 all_chunks col
    match r.2.2 with
    | some e => ⟨"Error getting embedding from Ollama: " ++ e, r.1, r.2.1⟩
    | none =>
      ⟨"Index built/updated. " ++ toString r.1.count ++ " total vectors stored.",
        r.1, r.2.1⟩

/-- The embedding calls a completed pass over `chunks` performs, starting the
enumeration counter at `idx`: one call per chunk whose id is not in the
existing-id snapshot. -/
def embedCallsOf (existing_ids : List String) : Nat → List (List Char) →
    List (String × List Char)
  | _, [] => []
  | idx, chunk :: rest =>
    if toString idx ∈ existing_ids then embedCallsOf existing_ids (idx + 1) rest
    else (toString idx, chunk) :: embedCallsOf existing_ids (idx + 1) rest

/-- The entries a pass over `chunks` commits to the collection: one entry per
non-skipped chunk whose embedding call succeeds. -/
def committedOf (embed : List Char → Except String Emb) (existing_ids : List String) :
    Nat → List (List Char) → List (String × List Char × Emb)
  | _, [] => []
  | idx, chunk :: rest =>
    if toString idx ∈ existing_ids then committedOf embed existing_ids (idx + 1) rest
    else
      match embed chunk with
      | .ok v => (toString idx, chunk, v) :: committedOf embed existing_ids (idx + 1) rest
      | .error _ => committedOf embed existing_ids (idx + 1) rest

/-- Every chunk of `l` (enumerated from `idx`) is either already indexed
(its id is in the snapshot) or embeds successfully.  This is the condition
under which the build loop runs to completion over `l`. -/
def SkipOrOk (embed : List Char → Except String Emb) (existing_ids : List String)
    (idx : Nat) (l : List (List Char)) : Prop :=
  ∀ k (h : k < l.length),
    toString (idx + k) ∈ existing_ids ∨ ∃ v, embed (l.get ⟨k, h⟩) = .ok v

/-- One choice object of a `"choices"` list: either a JSON dict, carrying
`choice["delta"]["content"]` and `choice["text"]` (each `""` when the key is
absent or empty, matching `.get(..., "")`), or a non-dict value. -/
inductive ChoiceVal where
  | dict (deltaContent : String) (text : String)
  | nonDict
deriving DecidableEq

/-- The `"choices"` key of a parsed payload: absent, present but not a list,
or a list of choice values. -/
inductive ChoicesField where
  | absent
  | nonList
  | clist (cs : List ChoiceVal)
deriving DecidableEq

/-- A successfully parsed stream payload: either a JSON dict, carrying its
`"response"` field (`""` when absent or empty) and its `"choices"` field,
or a non-dict JSON value. -/
inductive Payload where
  | dict (response : String) (choices : ChoicesField)
  | nonDict
deriving DecidableEq

/-- `ch.get("delta", {}).get("content", "") or ch.get("text", "") or ""`
for one choice object. -/
def choiceContrib : ChoiceVal → String
  | .nonDict => ""
  | .dict deltaContent text =>
    if deltaContent ≠ "" then deltaContent
    else if text ≠ "" then text else ""

/-- The delta-extraction logic of lines 126-134: take the `"response"` field;
only if it is empty and a truthy `"choices"` list is present, accumulate the
contribution of each choice. -/
def extractChunkText : Payload → String
  | .nonDict => ""
  | .dict response choices =>
    if response ≠ "" then response
    else
      match choices with
      | .absent => ""
      | .nonList => ""
      | .clist cs =>
        if cs = [] then ""
        else cs.foldl (fun acc ch => acc ++ choiceContrib ch) ""

/-- One line of the wire stream (`r.iter_lines()`): empty bytes, non-empty
bytes that are not valid UTF-8 (so `line.decode("utf-8")` raises, with message
`e`), or bytes decoding to the string `s`; `parsed` is what `json.loads`
returns on the framed-and-stripped line (`none` when it raises
`json.JSONDecodeError`). -/
inductive WireLine where
  | empty
  | undecodable (e : String)
  | valid (s : String) (parsed : Option Payload)

/-- The per-line outcome inside the streaming loop. -/
inductive LineStep where
  | skip
  | delta (t : String)
  | abort (e : String)

/-- Lines 116-134 for one wire line: decode (a decode failure escapes the
`json.JSONDecodeError` handler and aborts), strip, drop an SSE `data:` frame,
skip `[DONE]`/empty/unparseable lines, then extract the delta text. -/
def lineStep (w : WireLine) : LineStep :=
  match w with
  | .empty => .skip
  | .undecodable e => .abort e
  | .valid s parsed =>
    let text_line := pyStrip s
    let json_part :=
      if pyStartsWith text_line "data:" then pyStrip (pyDrop text_line 5)
      else text_line
    if json_part = "[DONE]" ∨ json_part = "" then .skip
    else
      match parsed with
      | none => .skip
      | some payload =>
        let chunk_text := extractChunkText payload
        if chunk_text = "" then .skip else .delta chunk_text

/-- The `for line in r.iter_lines():` loop: threads the accumulator, returns
the final accumulator, the list of yielded values (each the full accumulator),
and `some e` when an exception escaped the loop. -/
def processLines : List WireLine → String → String × List String × Option String
  | [], accumulated => (accumulated, [], none)
  | w :: rest, accumulated =>
    match lineStep w with
    | .skip => processLines rest accumulated
    | .abort e => (accumulated, [], some e)
    | .delta t =>
      let acc2 := accumulated ++ t
      let r := processLines rest acc2
      (r.1, acc2 :: r.2.1, r.2.2)

/-- The non-empty delta a wire line contributes, if any. -/
def lineDelta (w : WireLine) : Option String :=
  match lineStep w with
  | .delta t => some t
  | _ => none

/-- The successive non-empty deltas extracted from a stream. -/
def deltasOf (ws : List WireLine) : List String := ws.filterMap lineDelta

/-- Whether a line's step is an abort. -/
def isAbortStep : LineStep → Bool
  | .abort _ => true
  | _ => false

/-- Whether some line of the stream aborts the loop. -/
def hasAbort (ws : List WireLine) : Bool :=
  ws.any (fun w => isAbortStep (lineStep w))

/-- Fold the deltas onto an accumulator. -/
def accumDeltas (acc : String) (ds : List String) : String :=
  ds.foldl (fun a d => a ++ d) acc

/-- The successive accumulator values yielded for a delta sequence. -/
def accumFrom (acc : String) : List String → List String
  | [] => []
  | d :: ds => (acc ++ d) :: accumFrom (acc ++ d) ds

/-- The generation endpoint's response to the streaming POST: `httpError` is
`some e` when `r.raise_for_status()` raises, and `lines` is the wire stream. -/
structure GenResp where
  httpError : Option String
  lines : List WireLine

/-- The external services as seen by one `ask_with_context_stream` call:
the outcome of `get_embedding(question)`, the outcome of `collection.query`
(its `"documents"` field), and the generation endpoint's response as a
function of the posted prompt. -/
structure Env where
  embedResult : Except String (List Int)
  queryResult : Except String (List (List String))
  gen : String → GenResp

/-- The observable behaviour of one call: the yielded values in order, and how
many calls reached each external service. -/
structure Trace where
  outputs : List String
  embedCalls : Nat
  queryCalls : Nat
  genCalls : Nat
deriving DecidableEq

/-- The fixed prompt template of lines 103-106. -/
def promptTemplate (context question : String) : String :=
  "Use the following research context to answer the question concisely and accurately:\n\n"
    ++ context ++ "\n\nQuestion: " ++ question ++ "\nAnswer:"

/-- `ask_with_context_stream(question, top_k)` run against `env`.  The
generator's yields are collected into `Trace.outputs`.  The source indexes
`results.get("documents", [[]])[0]`; this is modelled with `List.headD`, and
no claim exercises an empty documents list. -/
def ask_with_context_stream (question : String) (top_k : Nat) (env : Env) : Trace :=
  if question = "" ∨ pyStrip question = "" then
    { outputs := ["Please enter a question."], embedCalls := 0, queryCalls := 0, genCalls := 0 }
  else
    match env.embedResult with
    | .error e =>
      { outputs := ["Error getting question embedding: " ++ e],
        embedCalls := 1, queryCalls := 0, genCalls := 0 }
    | .ok _ =>
      match env.queryResult with
      | .error e =>
        { outputs := ["Error querying ChromaDB: " ++ e],
          embedCalls := 1, queryCalls := 1, genCalls := 0 }
      | .ok documents =>
        let docs := documents.headD []
        let context := if docs ≠ [] then String.intercalate "\n\n" docs else ""
        let prompt := promptTemplate context question
        let resp := env.gen prompt
        match resp.httpError with
        | some e =>
          { outputs := ["Error calling Ollama generate API: " ++ e],
            embedCalls := 1, queryCalls := 1, genCalls := 1 }
        | none =>
          let r := processLines resp.lines ""
          match r.2.2 with
          | some e =>
            { outputs := r.2.1 ++ ["Error calling Ollama generate API: " ++ e],
              embedCalls := 1, queryCalls := 1, genCalls := 1 }
          | none =>
            { outputs := r.2.1 ++ [r.1],
              embedCalls := 1, queryCalls := 1, genCalls := 1 }

/-! ## Lemmas about the chunker -/

lemma chunkText_eq (T : List Char) (S : Nat) :
    chunkText T S =
      (List.range ((T.length + S - 1) / S)).map (fun k => (T.drop (k * S)).take S) := by
  simp [chunkText, pyRange, pySlice, List.map_map, Function.comp]

lemma chunkText_nil (S : Nat) : chunkText [] S = [] := by
  rcases Nat.eq_zero_or_pos S with h | h
  · subst h; rfl
  · rw [chunkText_eq]
    have h0 : (([] : List Char).length + S - 1) / S = 0 :=
      Nat.div_eq_of_lt (by simp; omega)
    rw [h0]
    rfl

lemma chunkText_cons (S : Nat) (hS : 0 < S) (T : List Char) (hne : T ≠ []) :
    chunkText T S = T.take S :: chunkText (T.drop S) S := by
  have hlen : 0 < T.length := List.length_pos.mpr hne
  rw [chunkText_eq, chunkText_eq]
  have hn : T.length + S - 1 = (T.length - 1) + S := by omega
  have hdrop : ((T.drop S).length + S - 1) / S = (T.length - 1) / S := by
    rw [List.length_drop]
    rcases le_or_lt S T.length with h | h
    · congr 1
      omega
    · rw [show T.length - S = 0 from by omega, Nat.div_eq_of_lt (by omega),
        Nat.div_eq_of_lt (by omega)]
  rw [hn, Nat.add_div_right _ hS, List.range_succ_eq_map, List.map_cons, hdrop,
    List.map_map]
  have hfun : ((fun k => (T.drop (k * S)).take S) ∘ Nat.succ)
      = fun k => (((T.drop S).drop (k * S)).take S) := by
    funext k
    simp [Function.comp, List.drop_drop, Nat.succ_mul, Nat.add_comm]
  rw [hfun]
  simp

lemma chunkText_flatten_aux (S : Nat) (hS : 0 < S) :
    ∀ (n : Nat) (T : List Char), T.length ≤ n → (chunkText T S).flatten = T := by
  intro n
  induction n with
  | zero =>
    intro T hT
    have hnil : T = [] := List.eq_nil_of_length_eq_zero (by omega)
    subst hnil
    simp [chunkText_nil]
  | succ n ih =>
    intro T hT
    rcases eq_or_ne T [] with rfl | hne
    · simp [chunkText_nil]
    · rw [chunkText_cons S hS T hne]
      have hlen : 0 < T.length := List.length_pos.mpr hne
      have hd : (T.drop S).length ≤ n := by
        rw [List.length_drop]; omega
      rw [List.flatten_cons, ih (T.drop S) hd, List.take_append_drop]

lemma chunkText_flatten (S : Nat) (hS : 0 < S) (T : List Char) :
    (chunkText T S).flatten = T :=
  chunkText_flatten_aux S hS T.length T le_rfl

lemma chunkText_length_le (T : List Char) (S : Nat) :
    ∀ c ∈ chunkText T S, c.length ≤ S := by
  intro c hc
  rw [chunkText_eq] at hc
  obtain ⟨k, _, rfl⟩ := List.mem_map.mp hc
  simp [List.length_take]

lemma chunkText_count (T : List Char) (S : Nat) :
    (chunkText T S).length = (T.length + S - 1) / S := by
  rw [chunkText_eq]
  simp

lemma chunkText_ne_nil (S : Nat) (hS : 0 < S) (T : List Char) (hne : T ≠ []) :
    chunkText T S ≠ [] := by
  rw [chunkText_cons S hS T hne]
  exact List.cons_ne_nil _ _

lemma chunkText_dropLast_aux (S : Nat) (hS : 0 < S) :
    ∀ (n : Nat) (T : List Char), T.length ≤ n →
      ∀ c ∈ (chunkText T S).dropLast, c.length = S := by
  intro n
  induction n with
  | zero =>
    intro T hT c hc
    have hnil : T = [] := List.eq_nil_of_length_eq_zero (by omega)
    subst hnil
    rw [chunkText_nil] at hc
    exact absurd hc (List.not_mem_nil c)
  | succ n ih =>
    intro T hT c hc
    rcases eq_or_ne T [] with rfl | hne
    · rw [chunkText_nil] at hc
      exact absurd hc (List.not_mem_nil c)
    · rw [chunkText_cons S hS T hne] at hc
      rcases eq_or_ne (T.drop S) [] with hd | hd
      · rw [hd, chunkText_nil] at hc
        have he : ([T.take S] : List (List Char)).dropLast = [] := rfl
        rw [he] at hc
        exact absurd hc (List.not_mem_nil c)
      · have hSlen : S < T.length := by
          have := List.length_pos.mpr hd
          rw [List.length_drop] at this
          omega
        rcases hl : chunkText (T.drop S) S with _ | ⟨t, ts⟩
        · exact absurd hl (chunkText_ne_nil S hS _ hd)
        · rw [hl] at hc
          have he : (T.take S :: t :: ts).dropLast = T.take S :: (t :: ts).dropLast := rfl
          rw [he] at hc
          rcases List.mem_cons.mp hc with rfl | hc'
          · simp [List.length_take]
            omega
          · exact ih (T.drop S) (by rw [List.length_drop]; omega) c (by rw [hl]; exact hc')

lemma chunkText_dropLast (S : Nat) (hS : 0 < S) (T : List Char) :
    ∀ c ∈ (chunkText T S).dropLast, c.length = S :=
  chunkText_dropLast_aux S hS T.length T le_rfl

lemma chunkText_mem_ne_nil_aux (S : Nat) (hS : 0 < S) :
    ∀ (n : Nat) (T : List Char), T.length ≤ n → ∀ c ∈ chunkText T S, c ≠ [] := by
  intro n
  induction n with
  | zero =>
    intro T hT c hc
    have hnil : T = [] := List.eq_nil_of_length_eq_zero (by omega)
    subst hnil
    rw [chunkText_nil] at hc
    exact absurd hc (List.not_mem_nil c)
  | succ n ih =>
    intro T hT c hc
    rcases eq_or_ne T [] with rfl | hne
    · rw [chunkText_nil] at hc
      exact absurd hc (List.not_mem_nil c)
    · rw [chunkText_cons S hS T hne] at hc
      rcases List.mem_cons.mp hc with rfl | hc'
      · have hlen : 0 < T.length := List.length_pos.mpr hne
        have : 0 < (T.take S).length := by
          rw [List.length_take]
          omega
        exact List.ne_nil_of_length_pos this
      · exact ih (T.drop S) (by rw [List.length_drop]; have := List.length_pos.mpr hne; omega) c hc'

lemma chunkText_mem_ne_nil (S : Nat) (hS : 0 < S) (T : List Char) :
    ∀ c ∈ chunkText T S, c ≠ [] :=
  chunkText_mem_ne_nil_aux S hS T.length T le_rfl

/-! ## Lemmas about the indexer -/

lemma skipOrOk_shift {embed : List Char → Except String Emb} {ex : List String}
    {idx : Nat} {c : List Char} {l : List (List Char)}
    (h : SkipOrOk embed ex idx (c :: l)) : SkipOrOk embed ex (idx + 1) l := by
  intro k hk
  have h2 : k + 1 < (c :: l).length := by simpa using Nat.succ_lt_succ hk
  have h3 := h (k + 1) h2
  rw [show idx + (k + 1) = idx + 1 + k from by omega] at h3
  simpa using h3

lemma skipOrOk_head {embed : List Char → Except String Emb} {ex : List String}
    {idx : Nat} {c : List Char} {l : List (List Char)}
    (h : SkipOrOk embed ex idx (c :: l)) :
    toString idx ∈ ex ∨ ∃ v, embed c = .ok v := by
  have h0 := h 0 (by simp)
  simpa using h0

lemma skipOrOk_of_ok {embed : List Char → Except String Emb} (ex : List String)
    (idx : Nat) {l : List (List Char)} (h : ∀ c ∈ l, ∃ v, embed c = .ok v) :
    SkipOrOk embed ex idx l :=
  fun k hk => Or.inr (h _ (l.get_mem k hk))

lemma skipOrOk_of_mem {embed : List Char → Except String Emb} {ex : List String}
    {idx : Nat} {l : List (List Char)}
    (h : ∀ k, k < l.length → toString (idx + k) ∈ ex) :
    SkipOrOk embed ex idx l :=
  fun k hk => Or.inl (h k hk)

lemma buildLoop_split (embed : List Char → Except String Emb) (ex : List String) :
    ∀ (l1 l2 : List (List Char)) (idx : Nat) (col : Collection),
      SkipOrOk embed ex idx l1 →
      buildLoop embed ex idx (l1 ++ l2) col =
        ((buildLoop embed ex (idx + l1.length) l2
            ⟨col.entries ++ committedOf embed ex idx l1⟩).1,
          embedCallsOf ex idx l1
            ++ (buildLoop embed ex (idx + l1.length) l2
                ⟨col.entries ++ committedOf embed ex idx l1⟩).2.1,
          (buildLoop embed ex (idx + l1.length) l2
            ⟨col.entries ++ committedOf embed ex idx l1⟩).2.2) := by
  intro l1
  induction l1 with
  | nil =>
    intro l2 idx col _
    simp [committedOf, embedCallsOf]
  | cons c l1 ih =>
    intro l2 idx col hpre
    have hpre' := skipOrOk_shift hpre
    have e3 : idx + (c :: l1).length = idx + 1 + l1.length := by
      simp
      omega
    by_cases hm : toString idx ∈ ex
    · have e1 : committedOf embed ex idx (c :: l1) = committedOf embed ex (idx + 1) l1 := by
        simp [committedOf, hm]
      have e2 : embedCallsOf ex idx (c :: l1) = embedCallsOf ex (idx + 1) l1 := by
        simp [embedCallsOf, hm]
      rw [List.cons_append,
        show buildLoop embed ex idx (c :: (l1 ++ l2)) col
            = buildLoop embed ex (idx + 1) (l1 ++ l2) col from by simp [buildLoop, hm],
        ih l2 (idx + 1) col hpre', e1, e2, e3]
    · rcases skipOrOk_head hpre with h0 | ⟨v, hv⟩
      · exact absurd h0 hm
      · have e1 : committedOf embed ex idx (c :: l1)
            = (toString idx, c, v) :: committedOf embed ex (idx + 1) l1 := by
          simp [committedOf, hm, hv]
        have e2 : embedCallsOf ex idx (c :: l1)
            = (toString idx, c) :: embedCallsOf ex (idx + 1) l1 := by
          simp [embedCallsOf, hm]
        rw [List.cons_append,
          show buildLoop embed ex idx (c :: (l1 ++ l2)) col
              = ((buildLoop embed ex (idx + 1) (l1 ++ l2)
                    (col.add (toString idx) c v)).1,
                  (toString idx, c)
                    :: (buildLoop embed ex (idx + 1) (l1 ++ l2)
                        (col.add (toString idx) c v)).2.1,
                  (buildLoop embed ex (idx + 1) (l1 ++ l2)
                    (col.add (toString idx) c v)).2.2) from by simp [buildLoop, hm, hv],
          ih l2 (idx + 1) (col.add (toString idx) c v) hpre', e1, e2, e3]
        simp [Collection.add]

lemma buildLoop_run (embed : List Char → Except String Emb) (ex : List String)
    (l : List (List Char)) (idx : Nat) (col : Collection)
    (hpre : SkipOrOk embed ex idx l) :
    buildLoop embed ex idx l col =
      (⟨col.entries ++ committedOf embed ex idx l⟩, embedCallsOf ex idx l, none) := by
  have h := buildLoop_split embed ex l [] idx col hpre
  simpa [buildLoop] using h

lemma committedOf_mem_ids (embed : List Char → Except String Emb) (ex : List String) :
    ∀ (l : List (List Char)) (idx : Nat), SkipOrOk embed ex idx l →
      ∀ k, k < l.length →
        toString (idx + k) ∈ ex
        ∨ toString (idx + k) ∈ (committedOf embed ex idx l).map (fun e => e.1) := by
  intro l
  induction l with
  | nil =>
    intro idx _ k hk
    exact absurd hk (by simp)
  | cons c l ih =>
    intro idx hpre k hk
    have hsub : ∀ s, s ∈ (committedOf embed ex (idx + 1) l).map (fun e => e.1) →
        s ∈ (committedOf embed ex idx (c :: l)).map (fun e => e.1) := by
      intro s hs
      by_cases hm : toString idx ∈ ex
      · simpa [committedOf, hm] using hs
      · cases he : embed c with
        | error err => simpa [committedOf, hm, he] using hs
        | ok v =>
          have hcm : committedOf embed ex idx (c :: l)
              = (toString idx, c, v) :: committedOf embed ex (idx + 1) l := by
            simp [committedOf, hm, he]
          rw [hcm, List.map_cons]
          exact List.mem_cons_of_mem _ hs
    cases k with
    | zero =>
      by_cases hm : toString idx ∈ ex
      · exact Or.inl (by simpa using hm)
      · rcases skipOrOk_head hpre with h0 | ⟨v, hv⟩
        · exact absurd h0 hm
        · refine Or.inr ?_
          simp [committedOf, hm, hv]
    | succ k =>
      have hk' : k < l.length := by simpa using Nat.lt_of_succ_lt_succ hk
      rcases ih (idx + 1) (skipOrOk_shift hpre) k hk' with h1 | h1
      · exact Or.inl (by rw [show idx + (k + 1) = idx + 1 + k from by omega]; exact h1)
      · refine Or.inr ?_
        rw [show idx + (k + 1) = idx + 1 + k from by omega]
        exact hsub _ h1

lemma embedCallsOf_eq_nil (ex : List String) :
    ∀ (l : List (List Char)) (idx : Nat),
      (∀ k, k < l.length → toString (idx + k) ∈ ex) →
      embedCallsOf ex idx l = [] := by
  intro l
  induction l with
  | nil => intro idx _; rfl
  | cons c l ih =>
    intro idx h
    have hm : toString idx ∈ ex := by simpa using h 0 (by simp)
    have ht : ∀ k, k < l.length → toString (idx + 1 + k) ∈ ex := by
      intro k hk
      have := h (k + 1) (by simpa using Nat.succ_lt_succ hk)
      rwa [show idx + (k + 1) = idx + 1 + k from by omega] at this
    simp [embedCallsOf, hm, ih (idx + 1) ht]

lemma committedOf_eq_nil (embed : List Char → Except String Emb) (ex : List String) :
    ∀ (l : List (List Char)) (idx : Nat),
      (∀ k, k < l.length → toString (idx + k) ∈ ex) →
      committedOf embed ex idx l = [] := by
  intro l
  induction l with
  | nil => intro idx _; rfl
  | cons c l ih =>
    intro idx h
    have hm : toString idx ∈ ex := by simpa using h 0 (by simp)
    have ht : ∀ k, k < l.length → toString (idx + 1 + k) ∈ ex := by
      intro k hk
      have := h (k + 1) (by simpa using Nat.succ_lt_succ hk)
      rwa [show idx + (k + 1) = idx + 1 + k from by omega] at this
    simp [committedOf, hm, ih (idx + 1) ht]

lemma build_index_empty (files : List TxtFile) (S : Nat)
    (embed : List Char → Except String Emb) (col : Collection)
    (h : load_all_chunks files S = []) :
    build_index files S embed col
      = ⟨"No .txt files found in the research_papers folder.", col, []⟩ := by
  simp [build_index, h]

lemma build_index_complete (files : List TxtFile) (S : Nat)
    (embed : List Char → Except String Emb) (col : Collection)
    (hne : load_all_chunks files S ≠ [])
    (hpre : SkipOrOk embed (if 0 < col.count then col.ids else []) 0
        (load_all_chunks files S)) :
    build_index files S embed col =
      ⟨"Index built/updated. "
          ++ toString (col.entries
              ++ committedOf embed (if 0 < col.count then col.ids else []) 0
                  (load_all_chunks files S)).length
          ++ " total vectors stored.",
        ⟨col.entries ++ committedOf embed (if 0 < col.count then col.ids else []) 0
            (load_all_chunks files S)⟩,
        embedCallsOf (if 0 < col.count then col.ids else []) 0
          (load_all_chunks files S)⟩ := by
  have hlen : ¬((load_all_chunks files S).length = 0) := by
    intro h
    exact hne (List.eq_nil_of_length_eq_zero h)
  simp only [build_index]
  rw [if_neg hlen, buildLoop_run embed _ _ 0 col hpre]
  simp [Collection.count]

lemma count_pos_of_mem_ids {c : Collection} {s : String} (h : s ∈ c.ids) :
    0 < c.count := by
  simp only [Collection.ids] at h
  obtain ⟨p, hp, -⟩ := List.mem_map.mp h
  simp only [Collection.count]
  exact List.length_pos.mpr (List.ne_nil_of_mem hp)

lemma build_index_second (files : List TxtFile) (S : Nat)
    (embed : List Char → Except String Emb) (col1 : Collection)
    (hne : load_all_chunks files S ≠ [])
    (hcount : 0 < col1.count)
    (hall : ∀ k, k < (load_all_chunks files S).length → toString k ∈ col1.ids) :
    build_index files S embed col1 =
      ⟨"Index built/updated. " ++ toString col1.count ++ " total vectors stored.",
        col1, []⟩ := by
  have hmem : ∀ k, k < (load_all_chunks files S).length →
      toString (0 + k) ∈ (if 0 < col1.count then col1.ids else []) := by
    intro k hk
    rw [if_pos hcount]
    simpa using hall k hk
  have h := build_index_complete files S embed col1 hne (skipOrOk_of_mem hmem)
  rw [h, committedOf_eq_nil embed _ _ 0 hmem, embedCallsOf_eq_nil _ _ 0 hmem]
  simp [Collection.count]

/-! ## Lemmas about the stream loop -/

lemma processLines_abort_cons (e : String) (ws : List WireLine) (acc : String) :
    processLines (WireLine.undecodable e :: ws) acc = (acc, [], some e) := rfl

lemma processLines_no_abort :
    ∀ (ws : List WireLine) (acc : String), hasAbort ws = false →
      processLines ws acc
        = (accumDeltas acc (deltasOf ws), accumFrom acc (deltasOf ws), none) := by
  intro ws
  induction ws with
  | nil =>
    intro acc _
    simp [processLines, deltasOf, accumDeltas, accumFrom]
  | cons w ws ih =>
    intro acc hab
    rw [hasAbort, List.any_cons] at hab
    have hw : isAbortStep (lineStep w) = false := by
      cases h : isAbortStep (lineStep w) <;> simp [h] at hab ⊢
    have hab' : hasAbort ws = false := by
      cases h : List.any ws (fun w => isAbortStep (lineStep w)) <;>
        simp [h, hasAbort] at hab ⊢
    cases hls : lineStep w with
    | skip =>
      have hd : deltasOf (w :: ws) = deltasOf ws := by
        simp [deltasOf, lineDelta, hls]
      simp [processLines, hls, hd, ih acc hab']
    | abort e =>
      rw [hls] at hw
      simp [isAbortStep] at hw
    | delta t =>
      have hd : deltasOf (w :: ws) = t :: deltasOf ws := by
        simp [deltasOf, lineDelta, hls]
      simp [processLines, hls, hd, accumDeltas, accumFrom, ih (acc ++ t) hab']

lemma processLines_append :
    ∀ (ws1 ws2 : List WireLine) (acc : String), hasAbort ws1 = false →
      processLines (ws1 ++ ws2) acc =
        ((processLines ws2 (accumDeltas acc (deltasOf ws1))).1,
          accumFrom acc (deltasOf ws1)
            ++ (processLines ws2 (accumDeltas acc (deltasOf ws1))).2.1,
          (processLines ws2 (accumDeltas acc (deltasOf ws1))).2.2) := by
  intro ws1
  induction ws1 with
  | nil =>
    intro ws2 acc _
    simp [deltasOf, accumDeltas, accumFrom]
  | cons w ws ih =>
    intro ws2 acc hab
    rw [hasAbort, List.any_cons] at hab
    have hw : isAbortStep (lineStep w) = false := by
      cases h : isAbortStep (lineStep w) <;> simp [h] at hab ⊢
    have hab' : hasAbort ws = false := by
      cases h : List.any ws (fun w => isAbortStep (lineStep w)) <;>
        simp [h, hasAbort] at hab ⊢
    cases hls : lineStep w with
    | skip =>
      have hd : deltasOf (w :: ws) = deltasOf ws := by
        simp [deltasOf, lineDelta, hls]
      simp [processLines, hls, hd, ih ws2 acc hab']
    | abort e =>
      rw [hls] at hw
      simp [isAbortStep] at hw
    | delta t =>
      have hd : deltasOf (w :: ws) = t :: deltasOf ws := by
        simp [deltasOf, lineDelta, hls]
      simp [processLines, hls, hd, accumDeltas, accumFrom, ih ws2 (acc ++ t) hab']

/-! ## Claims -/

/-- C4: for every text `T` (after stripping leading/trailing whitespace) and
every size `S > 0`, the chunk list produced for `T` consists of contiguous
non-overlapping substrings in original order whose concatenation equals the
stripped text exactly, each of length at most `S` with only the last possibly
shorter, and whose count equals `⌈len/S⌉ = (len + S - 1) / S`. -/
theorem chunk_partition_spec (T : String) (S : Nat) (hS : 0 < S) :
    (chunkText (stripChars T.data) S).flatten = stripChars T.data
    ∧ (∀ c ∈ chunkText (stripChars T.data) S, c.length ≤ S)
    ∧ (∀ c ∈ (chunkText (stripChars T.data) S).dropLast, c.length = S)
    ∧ (chunkText (stripChars T.data) S).length
        = ((stripChars T.data).length + S - 1) / S :=
  ⟨chunkText_flatten S hS _, chunkText_length_le _ S, chunkText_dropLast S hS _,
    chunkText_count _ S⟩

/-- Witness for C4 at `T = " abc "`, `S = 2`. -/
theorem chunk_partition_spec_witness :
    (0 : Nat) < 2
    ∧ ((chunkText (stripChars " abc ".data) 2).flatten = stripChars " abc ".data
      ∧ (∀ c ∈ chunkText (stripChars " abc ".data) 2, c.length ≤ 2)
      ∧ (∀ c ∈ (chunkText (stripChars " abc ".data) 2).dropLast, c.length = 2)
      ∧ (chunkText (stripChars " abc ".data) 2).length
          = ((stripChars " abc ".data).length + 2 - 1) / 2) :=
  ⟨by decide, chunk_partition_spec " abc " 2 (by decide)⟩

/-- C10: for every document directory and every chunk size greater than zero,
every string in the chunk list returned by `load_all_chunks` is non-empty. -/
theorem load_all_chunks_nonempty (files : List TxtFile) (S : Nat) (hS : 0 < S) :
    ∀ c ∈ load_all_chunks files S, c ≠ [] := by
  intro c hc
  simp only [load_all_chunks] at hc
  obtain ⟨L, hL, hcL⟩ := List.mem_flatten.mp hc
  obtain ⟨f, hf, hfL⟩ := List.mem_map.mp hL
  have hcL' : c ∈ (if stripChars f.content.data = [] then []
      else chunkText (stripChars f.content.data) S) := by
    rw [hfL]
    exact hcL
  by_cases ht : stripChars f.content.data = []
  · rw [if_pos ht] at hcL'
    exact absurd hcL' (List.not_mem_nil c)
  · rw [if_neg ht] at hcL'
    exact chunkText_mem_ne_nil S hS _ c hcL'

/-- Witness for C10 at a one-file corpus and `S = 1`. -/
theorem load_all_chunks_nonempty_witness :
    (0 : Nat) < 1 ∧ ∀ c ∈ load_all_chunks [⟨"a.txt", "ab"⟩] 1, c ≠ [] :=
  ⟨by decide, load_all_chunks_nonempty [⟨"a.txt", "ab"⟩] 1 (by decide)⟩

/-- C6: for every `top_k` and every question that is empty or whitespace-only,
`ask_with_context_stream` produces exactly one value — the prompt-for-input
message — and makes zero calls to the embedding, index and generation
services. -/
theorem ask_empty_question_short_circuit (question : String) (top_k : Nat)
    (env : Env) (h : question = "" ∨ pyStrip question = "") :
    ask_with_context_stream question top_k env
      = ⟨["Please enter a question."], 0, 0, 0⟩ := by
  simp only [ask_with_context_stream, if_pos h]

/-- Witness for C6 at the whitespace-only question `"   "`. -/
theorem ask_empty_question_short_circuit_witness :
    (("   " : String) = "" ∨ pyStrip "   " = "")
    ∧ ask_with_context_stream "   " 3
        ⟨Except.ok [], Except.ok [[]], fun _ => ⟨none, []⟩⟩
      = ⟨["Please enter a question."], 0, 0, 0⟩ :=
  ⟨Or.inr (by decide),
    ask_empty_question_short_circuit "   " 3 _ (Or.inr (by decide))⟩

/-- C9: when a parsed payload is a dict with a non-empty `"response"` field,
the extracted delta is that field and the `"choices"` content is ignored; with
an empty `"response"`, a choices list contributes, per choice, its nested
delta content if non-empty and otherwise its `"text"` field. -/
theorem extract_delta_shapes :
    (∀ (response : String) (choices : ChoicesField), response ≠ "" →
        extractChunkText (.dict response choices) = response)
    ∧ (∀ cs : List ChoiceVal,
        extractChunkText (.dict "" (.clist cs))
          = cs.foldl (fun acc ch => acc ++ choiceContrib ch) "")
    ∧ (∀ deltaContent text : String,
        choiceContrib (.dict deltaContent text)
          = if deltaContent = "" then text else deltaContent) := by
  refine ⟨?_, ?_, ?_⟩
  · intro r ch hr
    simp [extractChunkText, hr]
  · intro cs
    rcases eq_or_ne cs [] with rfl | h
    · simp [extractChunkText]
    · simp [extractChunkText, h]
  · intro dc txt
    rcases eq_or_ne dc "" with rfl | h
    · rcases eq_or_ne txt "" with rfl | h2 <;> simp [choiceContrib, *]
    · simp [choiceContrib, h]

/-- Witness for C9: a dict payload with non-empty `"response"` yields that
field even with a choices list present. -/
theorem extract_delta_shapes_witness :
    extractChunkText (Payload.dict "hi" (ChoicesField.clist [ChoiceVal.dict "x" "y"]))
      = "hi" :=
  extract_delta_shapes.1 "hi" (ChoicesField.clist [ChoiceVal.dict "x" "y"]) (by decide)

/-- C7: if the generation service responds to the streaming request with a
non-success HTTP status, `ask_with_context_stream` produces exactly one value
— an error description — and the produced sequence ends with no trailing
accumulator value. -/
theorem ask_gen_http_error_single_value (question : String) (top_k : Nat)
    (env : Env) (qEmb : List Int) (documents : List (List String))
    (context e : String) (ls : List WireLine)
    (hq : ¬(question = "" ∨ pyStrip question = ""))
    (hemb : env.embedResult = .ok qEmb)
    (hqr : env.queryResult = .ok documents)
    (hctx : context = if documents.headD [] ≠ []
        then String.intercalate "\n\n" (documents.headD []) else "")
    (hgen : env.gen (promptTemplate context question) = ⟨some e, ls⟩) :
    (ask_with_context_stream question top_k env).outputs
      = ["Error calling Ollama generate API: " ++ e] := by
  rw [hctx] at hgen
  simp only [ask_with_context_stream]
  rw [if_neg hq]
  simp only [hemb, hqr]
  rw [hgen]

/-- Witness for C7 at a concrete failing generation service. -/
theorem ask_gen_http_error_single_value_witness :
    (ask_with_context_stream "q" 3
        ⟨Except.ok [], Except.ok [[]],
          fun _ => ⟨some "500 Server Error", []⟩⟩).outputs
      = ["Error calling Ollama generate API: " ++ "500 Server Error"] :=
  ask_gen_http_error_single_value "q" 3 _ [] [[]] "" "500 Server Error" []
    (by decide) rfl rfl (by decide) rfl

/-- C8: a wire line whose bytes are not valid UTF-8 is not skipped like an
unparseable JSON line: the decode failure escapes the inner
`json.JSONDecodeError` handler, is caught by the outer handler, and the stream
terminates with a single error-describing value (nothing after it, and no
trailing accumulator value). -/
theorem ask_undecodable_line_aborts (question : String) (top_k : Nat)
    (env : Env) (qEmb : List Int) (documents : List (List String))
    (context e : String) (ws1 ws2 : List WireLine)
    (hq : ¬(question = "" ∨ pyStrip question = ""))
    (hemb : env.embedResult = .ok qEmb)
    (hqr : env.queryResult = .ok documents)
    (hctx : context = if documents.headD [] ≠ []
        then String.intercalate "\n\n" (documents.headD []) else "")
    (hgen : env.gen (promptTemplate context question)
        = ⟨none, ws1 ++ WireLine.undecodable e :: ws2⟩)
    (hab : hasAbort ws1 = false) :
    (ask_with_context_stream question top_k env).outputs
      = accumFrom "" (deltasOf ws1)
          ++ ["Error calling Ollama generate API: " ++ e] := by
  rw [hctx] at hgen
  simp only [ask_with_context_stream]
  rw [if_neg hq]
  simp only [hemb, hqr]
  rw [hgen]
  simp [processLines_append ws1 (WireLine.undecodable e :: ws2) "" hab,
    processLines_abort_cons]

/-- Witness for C8: one valid delta line followed by an undecodable line. -/
theorem ask_undecodable_line_aborts_witness :
    hasAbort [WireLine.valid "x" (some (Payload.dict "Hel" ChoicesField.absent))] = false
    ∧ (ask_with_context_stream "q" 3
        ⟨Except.ok [], Except.ok [[]],
          fun _ => ⟨none,
            [WireLine.valid "x" (some (Payload.dict "Hel" ChoicesField.absent)),
              WireLine.undecodable "bad utf-8"]⟩⟩).outputs
      = accumFrom ""
          (deltasOf [WireLine.valid "x" (some (Payload.dict "Hel" ChoicesField.absent))])
          ++ ["Error calling Ollama generate API: " ++ "bad utf-8"] :=
  ⟨by decide,
    ask_undecodable_line_aborts "q" 3 _ [] [[]] "" "bad utf-8"
      [WireLine.valid "x" (some (Payload.dict "Hel" ChoicesField.absent))] []
      (by decide) rfl rfl (by decide) rfl (by decide)⟩

/-- C1 counterexample: for a generation stream whose successive extracted
non-empty deltas are `["Hel", "lo", " world"]`, the full produced sequence is
not `["Hel", "Hello", "Hello world"]`: a fourth value — the final accumulator
again — is produced before the generator ends (line 144's trailing
`yield accumulated`). -/
theorem ask_stream_trailing_yield_cex :
    deltasOf
        [WireLine.valid "x" (some (Payload.dict "Hel" ChoicesField.absent)),
          WireLine.valid "y" (some (Payload.dict "lo" ChoicesField.absent)),
          WireLine.valid "z" (some (Payload.dict " world" ChoicesField.absent))]
      = ["Hel", "lo", " world"]
    ∧ (ask_with_context_stream "q" 3
        ⟨Except.ok [], Except.ok [[]],
          fun _ => ⟨none,
            [WireLine.valid "x" (some (Payload.dict "Hel" ChoicesField.absent)),
              WireLine.valid "y" (some (Payload.dict "lo" ChoicesField.absent)),
              WireLine.valid "z" (some (Payload.dict " world" ChoicesField.absent))]⟩⟩).outputs
      = ["Hel", "Hello", "Hello world", "Hello world"]
    ∧ (ask_with_context_stream "q" 3
        ⟨Except.ok [], Except.ok [[]],
          fun _ => ⟨none,
            [WireLine.valid "x" (some (Payload.dict "Hel" ChoicesField.absent)),
              WireLine.valid "y" (some (Payload.dict "lo" ChoicesField.absent)),
              WireLine.valid "z" (some (Payload.dict " world" ChoicesField.absent))]⟩⟩).outputs
      ≠ ["Hel", "Hello", "Hello world"] := by
  refine ⟨by decide, by decide, by decide⟩

/-- C1 (amended): for every generation stream whose successive extracted
non-empty deltas are `["Hel", "lo", " world"]`, the streaming loop yields
`["Hel", "Hello", "Hello world"]` — each the full accumulator so far — and
exactly one further value, the final accumulator `"Hello world"`, is produced
at stream end before the generator terminates. -/
theorem ask_stream_accumulates (question : String) (top_k : Nat) (env : Env)
    (qEmb : List Int) (documents : List (List String)) (context : String)
    (ws : List WireLine)
    (hq : ¬(question = "" ∨ pyStrip question = ""))
    (hemb : env.embedResult = .ok qEmb)
    (hqr : env.queryResult = .ok documents)
    (hctx : context = if documents.headD [] ≠ []
        then String.intercalate "\n\n" (documents.headD []) else "")
    (hgen : env.gen (promptTemplate context question) = ⟨none, ws⟩)
    (hab : hasAbort ws = false)
    (hds : deltasOf ws = ["Hel", "lo", " world"]) :
    (ask_with_context_stream question top_k env).outputs
      = ["Hel", "Hello", "Hello world", "Hello world"] := by
  rw [hctx] at hgen
  simp only [ask_with_context_stream]
  rw [if_neg hq]
  simp only [hemb, hqr]
  rw [hgen]
  simp [processLines_no_abort ws "" hab, hds]
  decide

/-- Witness for C1 (amended) at a concrete three-delta stream. -/
theorem ask_stream_accumulates_witness :
    deltasOf
        [WireLine.valid "a" (some (Payload.dict "Hel" ChoicesField.absent)),
          WireLine.valid "b" (some (Payload.dict "lo" ChoicesField.absent)),
          WireLine.valid "c" (some (Payload.dict " world" ChoicesField.absent))]
      = ["Hel", "lo", " world"]
    ∧ (ask_with_context_stream "why" 2
        ⟨Except.ok [], Except.ok [[]],
          fun _ => ⟨none,
            [WireLine.valid "a" (some (Payload.dict "Hel" ChoicesField.absent)),
              WireLine.valid "b" (some (Payload.dict "lo" ChoicesField.absent)),
              WireLine.valid "c" (some (Payload.dict " world" ChoicesField.absent))]⟩⟩).outputs
      = ["Hel", "Hello", "Hello world", "Hello world"] :=
  ⟨by decide,
    ask_stream_accumulates "why" 2 _ [] [[]] "" _
      (by decide) rfl rfl (by decide) rfl (by decide) (by decide)⟩

/-- C2: running `build_index` twice over an unchanged corpus (same files, same
chunk size, same vector-index contents), where the embedding service succeeds
on every chunk, performs zero embedding calls on the second run and leaves
`count()` unchanged. -/
theorem build_index_idempotent (files : List TxtFile) (S : Nat)
    (embed : List Char → Except String Emb) (col0 : Collection)
    (hok : ∀ c ∈ load_all_chunks files S, ∃ v, embed c = .ok v) :
    (build_index files S embed (build_index files S embed col0).col).embedLog = []
    ∧ (build_index files S embed (build_index files S embed col0).col).col.count
        = (build_index files S embed col0).col.count := by
  rcases eq_or_ne (load_all_chunks files S) [] with hnil | hne
  · simp [build_index_empty files S embed _ hnil]
  · have hpre1 : SkipOrOk embed (if 0 < col0.count then col0.ids else []) 0
        (load_all_chunks files S) := skipOrOk_of_ok _ 0 hok
    have h1 := build_index_complete files S embed col0 hne hpre1
    set ex1 := if 0 < col0.count then col0.ids else [] with hex1
    set CC := committedOf embed ex1 0 (load_all_chunks files S) with hCC
    have hall : ∀ k, k < (load_all_chunks files S).length →
        toString k ∈ (⟨col0.entries ++ CC⟩ : Collection).ids := by
      intro k hk
      have hm := committedOf_mem_ids embed ex1 (load_all_chunks files S) 0 hpre1 k hk
      rw [Nat.zero_add] at hm
      have hids : (⟨col0.entries ++ CC⟩ : Collection).ids
          = col0.ids ++ CC.map (fun p => p.1) := by
        simp [Collection.ids]
      rw [hids]
      rcases hm with hm | hm
      · refine List.mem_append_left _ ?_
        by_cases hc : 0 < col0.count
        · rw [hex1, if_pos hc] at hm
          exact hm
        · rw [hex1, if_neg hc] at hm
          exact absurd hm (List.not_mem_nil _)
      · refine List.mem_append_right _ ?_
        rw [hCC]
        exact hm
    have hcount1 : 0 < (⟨col0.entries ++ CC⟩ : Collection).count :=
      count_pos_of_mem_ids (hall 0 (List.length_pos.mpr hne))
    have h2 := build_index_second files S embed ⟨col0.entries ++ CC⟩ hne hcount1 hall
    rw [h1]
    simp [h2]

/-- Witness for C2 at a one-file corpus, always-succeeding embedder and an
initially empty index. -/
theorem build_index_idempotent_witness :
    (∀ c ∈ load_all_chunks [⟨"a.txt", "ab"⟩] 1, ∃ v,
        (fun _ => (Except.ok [0] : Except String Emb)) c = .ok v)
    ∧ ((build_index [⟨"a.txt", "ab"⟩] 1 (fun _ => Except.ok [0])
          (build_index [⟨"a.txt", "ab"⟩] 1 (fun _ => Except.ok [0]) ⟨[]⟩).col).embedLog
        = []
      ∧ (build_index [⟨"a.txt", "ab"⟩] 1 (fun _ => Except.ok [0])
          (build_index [⟨"a.txt", "ab"⟩] 1 (fun _ => Except.ok [0]) ⟨[]⟩).col).col.count
        = (build_index [⟨"a.txt", "ab"⟩] 1 (fun _ => Except.ok [0]) ⟨[]⟩).col.count) :=
  ⟨fun c _ => ⟨[0], rfl⟩,
    build_index_idempotent [⟨"a.txt", "ab"⟩] 1 (fun _ => Except.ok [0]) ⟨[]⟩
      (fun c _ => ⟨[0], rfl⟩)⟩

/-- C3: if the index's existing-id snapshot is the set `{"0", "1", "2"}` and
the freshly chunked corpus yields chunks with ids `"0"` through `"4"`, then
`build_index` calls the embedding client exactly for chunks `"3"` and `"4"`,
in that order, and adds exactly those two entries. -/
theorem build_index_dedup_embeds_only_new (files : List TxtFile) (S : Nat)
    (embed : List Char → Except String Emb) (col0 : Collection)
    (c0 c1 c2 c3 c4 : List Char) (v3 v4 : Emb)
    (hchunks : load_all_chunks files S = [c0, c1, c2, c3, c4])
    (hids : ∀ s : String, s ∈ col0.ids ↔ (s = "0" ∨ s = "1" ∨ s = "2"))
    (h3 : embed c3 = .ok v3) (h4 : embed c4 = .ok v4) :
    (build_index files S embed col0).embedLog = [("3", c3), ("4", c4)]
    ∧ (build_index files S embed col0).col.entries
        = col0.entries ++ [("3", c3, v3), ("4", c4, v4)] := by
  have t0 : toString (0 : Nat) = "0" := by decide
  have t1 : toString (1 : Nat) = "1" := by decide
  have t2 : toString (2 : Nat) = "2" := by decide
  have t3 : toString (3 : Nat) = "3" := by decide
  have t4 : toString (4 : Nat) = "4" := by decide
  have s0 : ("0" : String) ∈ col0.ids := (hids "0").mpr (Or.inl rfl)
  have s1 : ("1" : String) ∈ col0.ids := (hids "1").mpr (Or.inr (Or.inl rfl))
  have s2 : ("2" : String) ∈ col0.ids := (hids "2").mpr (Or.inr (Or.inr rfl))
  have s3 : ("3" : String) ∉ col0.ids := by
    intro h
    have h' := (hids "3").mp h
    revert h'
    decide
  have s4 : ("4" : String) ∉ col0.ids := by
    intro h
    have h' := (hids "4").mp h
    revert h'
    decide
  have hcount : 0 < col0.count := count_pos_of_mem_ids s0
  have hne : load_all_chunks files S ≠ [] := by
    rw [hchunks]
    simp
  have hex : (if 0 < col0.count then col0.ids else []) = col0.ids := if_pos hcount
  have hpre : SkipOrOk embed (if 0 < col0.count then col0.ids else []) 0
      (load_all_chunks files S) := by
    rw [hex, hchunks]
    intro k hk
    simp at hk
    interval_cases k
    · exact Or.inl (by simpa [t0] using s0)
    · exact Or.inl (by simpa [t1] using s1)
    · exact Or.inl (by simpa [t2] using s2)
    · exact Or.inr ⟨v3, by simpa using h3⟩
    · exact Or.inr ⟨v4, by simpa using h4⟩
  have hb := build_index_complete files S embed col0 hne hpre
  have hcom : committedOf embed col0.ids 0 [c0, c1, c2, c3, c4]
      = [("3", c3, v3), ("4", c4, v4)] := by
    simp [committedOf, t0, t1, t2, t3, t4, s0, s1, s2, s3, s4, h3, h4]
  have hcalls : embedCallsOf col0.ids 0 [c0, c1, c2, c3, c4]
      = [("3", c3), ("4", c4)] := by
    simp [embedCallsOf, t0, t1, t2, t3, t4, s0, s1, s2, s3, s4]
  rw [hb, hex, hchunks, hcom, hcalls]
  simp

/-- Witness for C3 at a one-file five-chunk corpus with `"0"`, `"1"`, `"2"`
already indexed. -/
theorem build_index_dedup_embeds_only_new_witness :
    (build_index [⟨"a.txt", "abcde"⟩] 1 (fun _ => Except.ok [0])
        ⟨[("0", ['a'], []), ("1", ['b'], []), ("2", ['c'], [])]⟩).embedLog
      = [("3", ['d']), ("4", ['e'])]
    ∧ (build_index [⟨"a.txt", "abcde"⟩] 1 (fun _ => Except.ok [0])
        ⟨[("0", ['a'], []), ("1", ['b'], []), ("2", ['c'], [])]⟩).col.entries
      = [("0", ['a'], []), ("1", ['b'], []), ("2", ['c'], [])]
          ++ [("3", ['d'], [0]), ("4", ['e'], [0])] :=
  build_index_dedup_embeds_only_new [⟨"a.txt", "abcde"⟩] 1 (fun _ => Except.ok [0])
    ⟨[("0", ['a'], []), ("1", ['b'], []), ("2", ['c'], [])]⟩
    ['a'] ['b'] ['c'] ['d'] ['e'] [0] [0]
    (by decide) (fun s => by simp [Collection.ids]) rfl rfl

/-- C5: if the embedding client fails on some chunk (the first non-skipped
chunk that fails, at position `l1.length`, every earlier chunk being skipped
or successfully embedded), `build_index` terminates immediately with an
error-describing return value, no further chunk is embedded or added, and
every chunk successfully embedded before the failure is already in the
collection. -/
theorem build_index_abort_preserves_committed (files : List TxtFile) (S : Nat)
    (embed : List Char → Except String Emb) (col : Collection)
    (ex : List String) (l1 : List (List Char)) (cbad : List Char)
    (l2 : List (List Char)) (e : String)
    (hex : ex = if 0 < col.count then col.ids else [])
    (hchunks : load_all_chunks files S = l1 ++ cbad :: l2)
    (hpre : SkipOrOk embed ex 0 l1)
    (hnot : toString l1.length ∉ ex)
    (hfail : embed cbad = .error e) :
    build_index files S embed col =
      ⟨"Error getting embedding from Ollama: " ++ e,
        ⟨col.entries ++ committedOf embed ex 0 l1⟩,
        embedCallsOf ex 0 l1 ++ [(toString l1.length, cbad)]⟩ := by
  have hlen : ¬((load_all_chunks files S).length = 0) := by
    rw [hchunks]
    simp
  simp only [build_index]
  rw [if_neg hlen, hchunks, ← hex,
    buildLoop_split embed ex l1 (cbad :: l2) 0 col hpre,
    show buildLoop embed ex (0 + l1.length) (cbad :: l2)
          ⟨col.entries ++ committedOf embed ex 0 l1⟩
        = (⟨col.entries ++ committedOf embed ex 0 l1⟩,
            [(toString l1.length, cbad)], some e) from by
      simp [buildLoop, Nat.zero_add, hnot, hfail]]

/-- Witness for C5: a one-chunk corpus whose very first embedding call fails,
against an empty index. -/
theorem build_index_abort_preserves_committed_witness :
    build_index [⟨"a.txt", "a"⟩] 1 (fun _ => Except.error "boom") ⟨[]⟩
      = ⟨"Error getting embedding from Ollama: boom", ⟨[]⟩, [("0", ['a'])]⟩ :=
  (build_index_abort_preserves_committed [⟨"a.txt", "a"⟩] 1
      (fun _ => Except.error "boom") ⟨[]⟩ [] [] ['a'] [] "boom"
      (by decide) (by decide) (fun k h => absurd h (Nat.not_lt_zero k))
      (by decide) rfl).trans (by decide)

end RAG
